import Mathlib

/-!
Verification of the extraction-and-consolidation engine of the student
internship tracker (`src/app.py`) against its design specification.

The embedding models a parsed spreadsheet cell as an optional `CellVal`
(`none` is an empty cell, i.e. pandas `NaN` / openpyxl `None`), a row as the
full list of grid cells of that row (empty cells included, so `length` is the
grid width at that row), a sheet as a list of rows, and a document as an
ordered list of named sheets.  A sheet whose entry is `none` is one that
`pd.read_excel` fails to read (the per-sheet `except: continue` path).  A
`File` is either a document together with its display name, or a file that
cannot be opened as a spreadsheet at all.
-/

namespace Tracker

/-- A non-empty spreadsheet cell value: a string or an integer-valued number.
(`str()` of a numeric cell is its decimal form; `int(float())` of a string
cell goes through `parsePyFloat`.) -/
inductive CellVal where
  | vStr (s : String)
  | vNum (n : Int)
deriving DecidableEq, Repr

/-- A row of the grid: one optional value per column, `none` = empty cell. -/
abbrev Row := List (Option CellVal)

/-- A readable sheet: its rows, top to bottom. -/
abbrev Sheet := List Row

/-- Python `str()` of a cell value. -/
def pyStr : CellVal → String
  | .vStr s => s
  | .vNum n => toString n

/-- Remove leading and trailing whitespace from a character list. -/
def stripChars (cs : List Char) : List Char :=
  ((cs.dropWhile Char.isWhitespace).reverse.dropWhile Char.isWhitespace).reverse

/-- Python `str.strip()`. -/
def pyStrip (s : String) : String :=
  ⟨stripChars s.data⟩

/-- Python `str.lower()`. -/
def pyLower (s : String) : String :=
  ⟨s.data.map Char.toLower⟩

/-- Python `int(float(s))` on a string: optional surrounding whitespace and
sign, digits with an optional fractional part, truncated toward zero (the
magnitude is the integer part of the digits before the dot).  Returns `none`
when `float(s)` raises, as for `"N/A"`. -/
def parsePyFloat (s : String) : Option Int :=
  let cs := stripChars s.data
  let p := match cs with
    | '-' :: rest => (true, rest)
    | '+' :: rest => (false, rest)
    | _ => (false, cs)
  let intDs := p.2.takeWhile Char.isDigit
  let rest := p.2.dropWhile Char.isDigit
  let ok := match rest with
    | [] => !intDs.isEmpty
    | '.' :: fds => fds.all Char.isDigit && (!intDs.isEmpty || !fds.isEmpty)
    | _ => false
  if ok then
    let n : Nat := intDs.foldl (fun a c => a * 10 + (c.toNat - 48)) 0
    some (if p.1 then -(n : Int) else (n : Int))
  else
    none

/-- `int(float(v))` on a cell value (line 80 of `app.py`). -/
def pyFloatInt : CellVal → Option Int
  | .vNum n => some n
  | .vStr s => parsePyFloat s

/-- The cell of row `r` at column index `i`; out-of-range reads as empty. -/
def getCell (r : Row) (i : Nat) : Option CellVal :=
  r.getD i none

/-- A `CategoryRecord` under construction: insertion-ordered association list
from category code to recorded count, mirroring a Python dict. -/
abbrev AList := List (String × Int)

/-- Python `d[k] = v` on an insertion-ordered dict: overwrite in place if the
key is present, else append at the end. -/
def pyUpdate : AList → String → Int → AList
  | [], k, v => [(k, v)]
  | (k', v') :: rest, k, v =>
    if k' = k then (k, v) :: rest else (k', v') :: pyUpdate rest k v

/-- Lines 61–65 of `app.py`: a row is a header row iff it has at least 4
columns, columns 0 and 2 are non-empty, and their stripped, lower-cased
string forms are `"internship code"` and `"completed"`. -/
def isHeaderRow (r : Row) : Bool :=
  decide (4 ≤ r.length) &&
    match getCell r 0, getCell r 2 with
    | some a, some c =>
        (pyLower (pyStrip (pyStr a)) == "internship code") &&
        (pyLower (pyStrip (pyStr c)) == "completed")
    | _, _ => false

/-- Lines 70–72 of `app.py`: the shape condition a data row must meet for the
block scan to process it (otherwise the block ends). -/
def rowShapeOk (r : Row) : Bool :=
  decide (4 ≤ r.length) && (getCell r 0).isSome && (getCell r 2).isSome

/-- Lines 68–86 of `app.py`: the inner block scan from the row after a header
downward.  A row meeting the shape condition contributes `code ↦ count` when
the stripped code is non-empty and the candidate parses as a number; a parse
failure or empty code skips the row and continues; a row failing the shape
condition ends the block. -/
def scanBlock : List Row → AList → AList
  | [], acc => acc
  | r :: rest, acc =>
    if rowShapeOk r then
      match getCell r 0, getCell r 2 with
      | some a, some c =>
        let code := pyStrip (pyStr a)
        if code = "" then
          scanBlock rest acc
        else
          match pyFloatInt c with
          | some n => scanBlock rest (pyUpdate acc code n)
          | none => scanBlock rest acc
      | _, _ => acc
    else acc

/-- Lines 59–90 of `app.py`: the per-sheet row loop.  `Sum.inl m` is the
early `return internship_data` (the mapping was non-empty after a block);
`Sum.inr acc` is falling off the end of the sheet with accumulator `acc`. -/
def sheetLoop : List Row → AList → Sum AList AList
  | [], acc => .inr acc
  | r :: rest, acc =>
    if isHeaderRow r then
      let acc' := scanBlock rest acc
      if acc'.isEmpty then sheetLoop rest acc' else .inl acc'
    else sheetLoop rest acc

/-- One parsed spreadsheet document: its named sheets in document order; a
`none` sheet is one whose `pd.read_excel` raises (skipped, line 92–93). -/
structure Document where
  sheets : List (String × Option Sheet)
deriving DecidableEq, Repr

/-- One input file: its display name, and either a parsed document or the
corrupt/unsupported case where opening as a spreadsheet raises. -/
inductive File where
  | corrupt (name : String)
  | ok (name : String) (doc : Document)
deriving DecidableEq, Repr

/-- The display name of a file (`os.path.basename`). -/
def fname : File → String
  | .corrupt n => n
  | .ok n _ => n

/-- Lines 54–95 of `app.py`: the sheet loop of `extract_internship_data`.
Unreadable sheets are skipped; an early return from a sheet is the overall
result; at the end, a non-empty accumulator is returned, else `none`. -/
def docLoop : List (String × Option Sheet) → AList → Option AList
  | [], acc => if acc.isEmpty then none else some acc
  | (_, none) :: rest, acc => docLoop rest acc
  | (_, some rows) :: rest, acc =>
    match sheetLoop rows acc with
    | .inl m => some m
    | .inr acc' => docLoop rest acc'

/-- `extract_internship_data` (lines 38–99): `none` when the file cannot be
opened (`pd.ExcelFile` raises) or no sheet yields entries. -/
def extract_internship_data (f : File) : Option AList :=
  match f with
  | .corrupt _ => none
  | .ok _ doc => docLoop doc.sheets []

/-- `extract_student_id` (lines 10–36): requires the sheet named exactly
`"Current Semester Advising"`; reads cell C5 (row index 4, column index 2);
an empty cell gives `none`, otherwise the stripped string form — note this
can be the empty string.  A file that cannot be opened gives `none` (the
`except` path). -/
def extract_student_id (f : File) : Option String :=
  match f with
  | .corrupt _ => none
  | .ok _ doc =>
    match doc.sheets.find? (fun p => p.1 = "Current Semester Advising") with
    | none => none
    | some (_, none) => none
    | some (_, some rows) =>
      match getCell (rows.getD 4 []) 2 with
      | none => none
      | some v => some (pyStrip (pyStr v))

/-- A value of the consolidated table: a string (a student identifier) or an
integer (a recorded count, or the fill value 0). -/
inductive TableVal where
  | s (v : String)
  | i (v : Int)
deriving DecidableEq, Repr

/-- A per-file record as a Python dict: insertion-ordered string-keyed map. -/
abbrev PyDict := List (String × TableVal)

/-- Python `d[k] = v` on a `PyDict`. -/
def dictSet : PyDict → String → TableVal → PyDict
  | [], k, v => [(k, v)]
  | (k', v') :: rest, k, v =>
    if k' = k then (k, v) :: rest else (k', v') :: dictSet rest k v

/-- Lines 149–150 of `app.py`: `{'Student_ID': sid}` then
`.update(internship_data)`, one dict-set per recorded entry in order. -/
def mkRecord (sid : String) (d : AList) : PyDict :=
  d.foldl (fun acc p => dictSet acc p.1 (.i p.2)) [("Student_ID", .s sid)]

/-- The failure reason appended when no student identifier is obtained. -/
def idErrReason : String :=
  "Could not extract student ID from 'Current Semester Advising' sheet, cell C5"

/-- The failure reason appended when no internship data is obtained. -/
def dataErrReason : String :=
  "Could not extract internship data"

/-- Lines 132–156 of `app.py`: the per-file loop.  Returns the accumulated
records, the processed file names and the error entries (each the file name
joined with the reason by `": "`), all in input order.  The caller's
falsiness checks (`if not student_id`, `if not internship_data`) reject
`none`, the empty string and the empty mapping. -/
def processFiles : List File → List PyDict × List String × List String
  | [] => ([], [], [])
  | f :: rest =>
    let n := fname f
    let out := processFiles rest
    match extract_student_id f with
    | none => (out.1, out.2.1, (n ++ ": " ++ idErrReason) :: out.2.2)
    | some sid =>
      if sid = "" then
        (out.1, out.2.1, (n ++ ": " ++ idErrReason) :: out.2.2)
      else
        match extract_internship_data f with
        | none => (out.1, out.2.1, (n ++ ": " ++ dataErrReason) :: out.2.2)
        | some d =>
          if d.isEmpty then
            (out.1, out.2.1, (n ++ ": " ++ dataErrReason) :: out.2.2)
          else
            (mkRecord sid d :: out.1, n :: out.2.1, out.2.2)

/-- Add a key at the end of a first-seen-order key list unless present. -/
def insKey (a : List String) (k : String) : List String :=
  if k ∈ a then a else a ++ [k]

/-- First-seen-order union of key lists: how `pd.DataFrame(list_of_dicts)`
determines the column order. -/
def unionKeys (kss : List (List String)) : List String :=
  kss.foldl (fun acc ks => ks.foldl insKey acc) []

/-- The columns of `pd.DataFrame(all_student_data)` (line 160). -/
def dfColumns (recs : List PyDict) : List String :=
  unionKeys (recs.map (fun d => d.map Prod.fst))

/-- Line 164 of `app.py`: `['Student_ID'] + [col for col in cols if col != 'Student_ID']`. -/
def reorderCols (cs : List String) : List String :=
  "Student_ID" :: cs.filter (fun c => c ≠ "Student_ID")

/-- Lines 160–165 of `app.py`: one table row per record, one value per column,
missing keys filled with 0 (`fillna(0)`). -/
def tableRows (cols : List String) (recs : List PyDict) : List (List TableVal) :=
  recs.map (fun d => cols.map (fun c => (d.lookup c).getD (.i 0)))

/-- `process_zip_file` (lines 101–169) after archive unpacking: from the
ordered input files, the consolidated table (columns and rows), the processed
names and the error entries.  No successful record gives an empty table. -/
def process_zip_file (fs : List File) :
    (List String × List (List TableVal)) × List String × List String :=
  let out := processFiles fs
  if out.1.isEmpty then (([], []), out.2.1, out.2.2)
  else
    let cols := reorderCols (dfColumns out.1)
    ((cols, tableRows cols out.1), out.2.1, out.2.2)

/-! ### Derived views of the per-file pipeline, used to state the claims -/

/-- The student identifier the batch layer sees for a file: the extracted
string, with absence collapsed to `""` exactly as the caller's falsiness
check `if not student_id` does. -/
def sidOf (f : File) : String :=
  (extract_student_id f).getD ""

/-- The category record the batch layer sees for a file: the extracted
mapping, with absence collapsed to `[]` exactly as `if not internship_data`
does. -/
def catOf (f : File) : AList :=
  (extract_internship_data f).getD []

/-- The category codes recorded for a file, in recording order. -/
def catCodes (f : File) : List String :=
  (catOf f).map Prod.fst

/-- A file takes the success path of the per-file loop iff its identifier is
non-empty and its category mapping is non-empty. -/
def fileOk (f : File) : Bool :=
  sidOf f ≠ "" && !(catOf f).isEmpty

/-- The record a successful file contributes. -/
def recOf (f : File) : PyDict :=
  mkRecord (sidOf f) (catOf f)

/-- The error entry a failed file contributes. -/
def errOf (f : File) : String :=
  fname f ++ ": " ++ (if sidOf f = "" then idErrReason else dataErrReason)

/-- The successfully processed files of a batch, in input order. -/
def okFiles (fs : List File) : List File :=
  fs.filter fileOk

/-- Whether scanning one readable sheet alone yields a non-empty mapping
(the early-return outcome of the per-sheet loop). -/
def sheetFinds (rows : List Row) : Bool :=
  match sheetLoop rows [] with
  | .inl _ => true
  | .inr _ => false

/-! ### Concrete documents used as test inputs -/

/-- The header row of the documented data format. -/
def hdrRow : Row :=
  [some (.vStr "Internship Code"), some (.vStr "Total Hours"),
   some (.vStr "Completed"), some (.vStr "Remaining")]

/-- A data row: category code, total, completed value, remaining. -/
def dRow (c : String) (v : CellVal) : Row :=
  [some (.vStr c), some (.vNum 50), some v, some (.vNum 25)]

/-- A "Current Semester Advising" sheet whose C5 cell holds `idv`. -/
def advSheet (idv : Option CellVal) : Sheet :=
  [[], [], [], [], [none, none, idv, none]]

/-- A well-formed single-student document (spec Scenario A). -/
def sampleDoc : Document :=
  ⟨[("Current Semester Advising", some (advSheet (some (.vStr "S12345")))),
    ("Data", some [hdrRow, dRow "SPTH290" (.vNum 25), [none, none, none, none]])]⟩

/-- A document whose data block has a textual "N/A" in the Completed column
between two numeric rows (spec Scenario D). -/
def blockDoc : Document :=
  ⟨[("Data", some [hdrRow, dRow "A" (.vNum 1), dRow "B" (.vStr "N/A"),
                   dRow "C" (.vNum 3), []])]⟩

/-- A document whose C5 cell holds whitespace-only text. -/
def wsDoc : Document :=
  ⟨[("Current Semester Advising", some (advSheet (some (.vStr "   "))))]⟩

/-- A header row with extra whitespace and different casing in the two
anchor cells. -/
def mixedHdrRow : Row :=
  [some (.vStr "  INTERNSHIP code "), some (.vStr "Total Hours"),
   some (.vStr " Completed"), some (.vStr "Remaining")]

/-- A document whose data block records the category code "Student_ID". -/
def collideDoc : Document :=
  ⟨[("Current Semester Advising", some (advSheet (some (.vStr "S1")))),
    ("Data", some [hdrRow, dRow "Student_ID" (.vNum 7), []])]⟩

/-- A document for student S2 reporting only category "X". -/
def xDoc : Document :=
  ⟨[("Current Semester Advising", some (advSheet (some (.vStr "S2")))),
    ("Data", some [hdrRow, dRow "X" (.vNum 3), []])]⟩

/-- A document for student S1 reporting only category "SPTH290". -/
def oneDocA : Document :=
  ⟨[("Current Semester Advising", some (advSheet (some (.vStr "S1")))),
    ("Data", some [hdrRow, dRow "SPTH290" (.vNum 25), []])]⟩

/-- A document for student S2 reporting only category "SPTH291". -/
def oneDocB : Document :=
  ⟨[("Current Semester Advising", some (advSheet (some (.vStr "S2")))),
    ("Data", some [hdrRow, dRow "SPTH291" (.vNum 30), []])]⟩

/-! ### Lemmas: dict update and the block scan -/

theorem lookup_pyUpdate (d : AList) (k k' : String) (v : Int) :
    (pyUpdate d k v).lookup k' = if k' = k then some v else d.lookup k' := by
  induction d with
  | nil =>
    by_cases h : k' = k
    · subst h; simp [pyUpdate, List.lookup_cons]
    · simp [pyUpdate, List.lookup_cons, beq_false_of_ne h, h]
  | cons p rest ih =>
    obtain ⟨a, b⟩ := p
    by_cases hak : a = k
    · subst hak
      by_cases h : k' = a
      · subst h; simp [pyUpdate, List.lookup_cons]
      · simp [pyUpdate, List.lookup_cons, beq_false_of_ne h, h]
    · by_cases h : k' = a
      · have hkk : ¬ k' = k := fun hh => hak (h.symm.trans hh)
        simp [pyUpdate, hak, List.lookup_cons, hkk, h]
      · simp [pyUpdate, hak, List.lookup_cons, beq_false_of_ne h, ih]

theorem keys_pyUpdate (d : AList) (k : String) (v : Int) :
    (pyUpdate d k v).map Prod.fst =
      if k ∈ d.map Prod.fst then d.map Prod.fst else d.map Prod.fst ++ [k] := by
  induction d with
  | nil => simp [pyUpdate]
  | cons p rest ih =>
    obtain ⟨a, b⟩ := p
    by_cases hak : a = k
    · subst hak; simp [pyUpdate]
    · simp [pyUpdate, hak, ih, Ne.symm hak]
      by_cases hm : k ∈ rest.map Prod.fst <;> simp [hm, Ne.symm hak]

theorem nodupKeys_pyUpdate (d : AList) (k : String) (v : Int)
    (h : (d.map Prod.fst).Nodup) : ((pyUpdate d k v).map Prod.fst).Nodup := by
  rw [keys_pyUpdate]
  by_cases hm : k ∈ d.map Prod.fst
  · simpa [hm] using h
  · rw [if_neg hm]
    exact h.append (List.nodup_singleton k)
      (by intro x hx hk; simp at hk; subst hk; exact hm hx)

theorem pyUpdate_ne_nil (d : AList) (k : String) (v : Int) :
    pyUpdate d k v ≠ [] := by
  cases d with
  | nil => simp [pyUpdate]
  | cons p rest =>
    obtain ⟨a, b⟩ := p
    by_cases hak : a = k <;> simp [pyUpdate, hak]

theorem scanBlock_ne_nil (rows : List Row) (acc : AList) (h : acc ≠ []) :
    scanBlock rows acc ≠ [] := by
  induction rows generalizing acc with
  | nil => simpa [scanBlock] using h
  | cons r rest ih =>
    simp only [scanBlock]
    split
    · split
      · split
        · exact ih acc h
        · split
          · exact ih _ (pyUpdate_ne_nil _ _ _)
          · exact ih acc h
      · exact h
    · exact h

theorem scanBlock_nodupKeys (rows : List Row) (acc : AList)
    (h : (acc.map Prod.fst).Nodup) :
    ((scanBlock rows acc).map Prod.fst).Nodup := by
  induction rows generalizing acc with
  | nil => simpa [scanBlock] using h
  | cons r rest ih =>
    simp only [scanBlock]
    split
    · split
      · split
        · exact ih acc h
        · split
          · exact ih _ (nodupKeys_pyUpdate _ _ _ h)
          · exact ih acc h
      · exact h
    · exact h

theorem scanBlock_lookup_isSome (rows : List Row) (acc : AList) (c : String)
    (h : (acc.lookup c).isSome) :
    ((scanBlock rows acc).lookup c).isSome := by
  induction rows generalizing acc with
  | nil => simpa [scanBlock] using h
  | cons r rest ih =>
    simp only [scanBlock]
    split
    · split
      · split
        · exact ih acc h
        · split
          · refine ih _ ?_
            rw [lookup_pyUpdate]
            split
            · simp
            · exact h
          · exact ih acc h
      · exact h
    · exact h

/-! ### Lemmas: the per-sheet loop and the document loop -/

theorem sheetLoop_cons_header (r : Row) (rest : List Row) (acc : AList)
    (hh : isHeaderRow r = true) (he : (scanBlock rest acc).isEmpty = true) :
    sheetLoop (r :: rest) acc = sheetLoop rest (scanBlock rest acc) := by
  simp [sheetLoop, hh, he]

theorem sheetLoop_cons_found (r : Row) (rest : List Row) (acc : AList)
    (hh : isHeaderRow r = true) (he : (scanBlock rest acc).isEmpty = false) :
    sheetLoop (r :: rest) acc = .inl (scanBlock rest acc) := by
  simp [sheetLoop, hh, he]

theorem sheetLoop_cons_nonheader (r : Row) (rest : List Row) (acc : AList)
    (hh : isHeaderRow r = false) :
    sheetLoop (r :: rest) acc = sheetLoop rest acc := by
  simp [sheetLoop, hh]

theorem sheetLoop_inr_nil (rows : List Row) :
    ∀ acc a, sheetLoop rows acc = .inr a → acc = [] → a = [] := by
  induction rows with
  | nil =>
    intro acc a h hacc
    simp only [sheetLoop, Sum.inr.injEq] at h
    exact h ▸ hacc
  | cons r rest ih =>
    intro acc a h hacc
    by_cases hh : isHeaderRow r
    · by_cases he : (scanBlock rest acc).isEmpty
      · rw [sheetLoop_cons_header r rest acc hh he] at h
        exact ih _ _ h (List.isEmpty_iff.mp he)
      · rw [sheetLoop_cons_found r rest acc hh (Bool.eq_false_iff.mpr he)] at h
        cases h
    · rw [sheetLoop_cons_nonheader r rest acc (Bool.eq_false_iff.mpr hh)] at h
      exact ih _ _ h hacc

theorem sheetLoop_inl_ne_nil (rows : List Row) :
    ∀ acc m, sheetLoop rows acc = .inl m → m ≠ [] := by
  induction rows with
  | nil => intro acc m h; simp [sheetLoop] at h
  | cons r rest ih =>
    intro acc m h
    by_cases hh : isHeaderRow r
    · by_cases he : (scanBlock rest acc).isEmpty
      · rw [sheetLoop_cons_header r rest acc hh he] at h
        exact ih _ _ h
      · have he' := Bool.eq_false_iff.mpr he
        rw [sheetLoop_cons_found r rest acc hh he'] at h
        cases h
        intro hnil
        rw [hnil] at he'
        simp at he'
    · rw [sheetLoop_cons_nonheader r rest acc (Bool.eq_false_iff.mpr hh)] at h
      exact ih _ _ h

theorem sheetLoop_nodupKeys (rows : List Row) (acc : AList)
    (h : (acc.map Prod.fst).Nodup) :
    ((((sheetLoop rows acc).elim id id)).map Prod.fst).Nodup := by
  induction rows generalizing acc with
  | nil => simpa [sheetLoop] using h
  | cons r rest ih =>
    by_cases hh : isHeaderRow r
    · by_cases he : (scanBlock rest acc).isEmpty
      · rw [sheetLoop_cons_header r rest acc hh he]
        exact ih _ (scanBlock_nodupKeys _ _ h)
      · rw [sheetLoop_cons_found r rest acc hh (Bool.eq_false_iff.mpr he)]
        simpa using scanBlock_nodupKeys rest acc h
    · rw [sheetLoop_cons_nonheader r rest acc (Bool.eq_false_iff.mpr hh)]
      exact ih _ h

theorem docLoop_some_ne_nil (sheets : List (String × Option Sheet)) :
    ∀ acc m, docLoop sheets acc = some m → acc = [] → m ≠ [] := by
  induction sheets with
  | nil => intro acc m h hacc; subst hacc; simp [docLoop] at h
  | cons p rest ih =>
    intro acc m h hacc
    obtain ⟨nm, os⟩ := p
    cases os with
    | none => exact ih _ _ h hacc
    | some rows =>
      simp only [docLoop] at h
      cases hs : sheetLoop rows acc with
      | inl m' =>
        simp only [hs, Option.some.injEq] at h
        exact h ▸ sheetLoop_inl_ne_nil rows acc m' hs
      | inr acc' =>
        simp only [hs] at h
        exact ih _ _ h (sheetLoop_inr_nil rows acc acc' hs hacc)

theorem docLoop_nodupKeys (sheets : List (String × Option Sheet)) :
    ∀ acc m, (acc.map Prod.fst).Nodup → docLoop sheets acc = some m →
      (m.map Prod.fst).Nodup := by
  induction sheets with
  | nil =>
    intro acc m hn h
    by_cases he : acc.isEmpty <;> simp [docLoop, he] at h
    exact h ▸ hn
  | cons p rest ih =>
    intro acc m hn h
    obtain ⟨nm, os⟩ := p
    cases os with
    | none => exact ih _ _ hn h
    | some rows =>
      simp only [docLoop] at h
      cases hs : sheetLoop rows acc with
      | inl m' =>
        simp only [hs, Option.some.injEq] at h
        have := sheetLoop_nodupKeys rows acc hn
        rw [hs] at this
        simpa [h.symm] using this
      | inr acc' =>
        simp only [hs] at h
        have := sheetLoop_nodupKeys rows acc hn
        rw [hs] at this
        exact ih _ _ (by simpa using this) h

theorem docLoop_append (sheets extra : List (String × Option Sheet)) :
    ∀ acc m, docLoop sheets acc = some m → acc = [] →
      docLoop (sheets ++ extra) acc = some m := by
  induction sheets with
  | nil => intro acc m h hacc; subst hacc; simp [docLoop] at h
  | cons p rest ih =>
    intro acc m h hacc
    obtain ⟨nm, os⟩ := p
    cases os with
    | none =>
      simpa only [List.cons_append, docLoop] using ih _ _ h hacc
    | some rows =>
      simp only [docLoop] at h
      simp only [List.cons_append, docLoop]
      cases hs : sheetLoop rows acc with
      | inl m' => simp only [hs] at h ⊢; exact h
      | inr acc' =>
        simp only [hs] at h ⊢
        exact ih _ _ h (sheetLoop_inr_nil rows acc acc' hs hacc)

theorem docLoop_none_iff (sheets : List (String × Option Sheet)) :
    docLoop sheets [] = none ↔
      ∀ p ∈ sheets, ∀ rows, p.2 = some rows → sheetFinds rows = false := by
  induction sheets with
  | nil => simp [docLoop]
  | cons p rest ih =>
    obtain ⟨nm, os⟩ := p
    cases os with
    | none =>
      simp only [docLoop]
      rw [ih]
      constructor
      · intro h q hq rows hr
        rcases List.mem_cons.mp hq with hq | hq
        · subst hq; cases hr
        · exact h q hq rows hr
      · intro h q hq rows hr
        exact h q (List.mem_cons_of_mem _ hq) rows hr
    | some rows0 =>
      simp only [docLoop]
      cases hs : sheetLoop rows0 [] with
      | inl m' =>
        simp only [hs]
        constructor
        · intro h; cases h
        · intro h
          have hf := h (nm, some rows0) (List.mem_cons_self _ _) rows0 rfl
          rw [sheetFinds, hs] at hf
          cases hf
      | inr acc' =>
        have hacc' : acc' = [] := sheetLoop_inr_nil rows0 [] acc' hs rfl
        simp only [hs, hacc']
        rw [ih]
        constructor
        · intro h q hq rows hr
          rcases List.mem_cons.mp hq with hq | hq
          · subst hq
            simp only at hr
            cases hr
            rw [sheetFinds, hs]
          · exact h q hq rows hr
        · intro h q hq rows hr
          exact h q (List.mem_cons_of_mem _ hq) rows hr

theorem extract_ne_nil (f : File) (m : AList)
    (h : extract_internship_data f = some m) : m ≠ [] := by
  cases f with
  | corrupt n => cases h
  | ok n doc => exact docLoop_some_ne_nil doc.sheets [] m h rfl

theorem extract_nodupKeys (f : File) (m : AList)
    (h : extract_internship_data f = some m) : (m.map Prod.fst).Nodup := by
  cases f with
  | corrupt n => cases h
  | ok n doc => exact docLoop_nodupKeys doc.sheets [] m (by simp) h

theorem fileOk_extract (f : File) (h : fileOk f = true) :
    extract_internship_data f = some (catOf f) := by
  simp only [fileOk, Bool.and_eq_true] at h
  cases hx : extract_internship_data f with
  | none =>
    exfalso
    have : catOf f = [] := by rw [catOf, hx]; rfl
    rw [this] at h
    simp at h
  | some d =>
    simp [catOf, hx]

theorem fileOk_sid (f : File) (h : fileOk f = true) : sidOf f ≠ "" := by
  simp only [fileOk, Bool.and_eq_true, decide_eq_true_eq] at h
  exact h.1

theorem fileOk_cat_ne_nil (f : File) (h : fileOk f = true) : catOf f ≠ [] := by
  simp only [fileOk, Bool.and_eq_true] at h
  intro hnil
  rw [hnil] at h
  simp at h

theorem catOf_nodupKeys (f : File) (h : fileOk f = true) :
    ((catOf f).map Prod.fst).Nodup :=
  extract_nodupKeys f (catOf f) (fileOk_extract f h)

/-! ### Lemmas: record construction and the per-file loop -/

theorem lookup_eq_none_of_not_mem {α : Type} (l : List (String × α)) (k : String)
    (h : k ∉ l.map Prod.fst) : l.lookup k = none := by
  induction l with
  | nil => rfl
  | cons p rest ih =>
    obtain ⟨a, b⟩ := p
    simp only [List.map_cons, List.mem_cons] at h
    push_neg at h
    simp [List.lookup_cons, beq_false_of_ne h.1, ih h.2]

theorem lookup_dictSet (d : PyDict) (k k' : String) (v : TableVal) :
    (dictSet d k v).lookup k' = if k' = k then some v else d.lookup k' := by
  induction d with
  | nil =>
    by_cases h : k' = k
    · subst h; simp [dictSet, List.lookup_cons]
    · simp [dictSet, List.lookup_cons, beq_false_of_ne h, h]
  | cons p rest ih =>
    obtain ⟨a, b⟩ := p
    by_cases hak : a = k
    · subst hak
      by_cases h : k' = a
      · subst h; simp [dictSet, List.lookup_cons]
      · simp [dictSet, List.lookup_cons, beq_false_of_ne h, h]
    · by_cases h : k' = a
      · have hkk : ¬ k' = k := fun hh => hak (h.symm.trans hh)
        simp [dictSet, hak, List.lookup_cons, hkk, h]
      · simp [dictSet, hak, List.lookup_cons, beq_false_of_ne h, ih]

theorem keys_dictSet (d : PyDict) (k : String) (v : TableVal) :
    (dictSet d k v).map Prod.fst =
      if k ∈ d.map Prod.fst then d.map Prod.fst else d.map Prod.fst ++ [k] := by
  induction d with
  | nil => simp [dictSet]
  | cons p rest ih =>
    obtain ⟨a, b⟩ := p
    by_cases hak : a = k
    · subst hak; simp [dictSet]
    · simp [dictSet, hak, ih, Ne.symm hak]
      by_cases hm : k ∈ rest.map Prod.fst <;> simp [hm, Ne.symm hak]

theorem lookup_foldl_dictSet : ∀ (d : AList) (init : PyDict) (c : String),
    (d.map Prod.fst).Nodup →
    (d.foldl (fun acc p => dictSet acc p.1 (TableVal.i p.2)) init).lookup c =
      (match d.lookup c with
       | some v => some (TableVal.i v)
       | none => init.lookup c) := by
  intro d
  induction d with
  | nil => intro init c _; rfl
  | cons p rest ih =>
    obtain ⟨k, v⟩ := p
    intro init c hnd
    rw [List.map_cons, List.nodup_cons] at hnd
    have hcons := hnd
    rw [List.foldl_cons, ih _ c hcons.2]
    by_cases hck : c = k
    · subst hck
      rw [lookup_eq_none_of_not_mem rest c hcons.1]
      simp [List.lookup_cons, lookup_dictSet]
    · rw [List.lookup_cons]
      cases hd : rest.lookup c <;>
        simp [hd, beq_false_of_ne hck, lookup_dictSet, hck]

theorem keys_foldl_dictSet : ∀ (d : AList) (init : PyDict),
    (d.map Prod.fst).Nodup → (∀ k ∈ d.map Prod.fst, k ∉ init.map Prod.fst) →
    (d.foldl (fun acc p => dictSet acc p.1 (TableVal.i p.2)) init).map Prod.fst
      = init.map Prod.fst ++ d.map Prod.fst := by
  intro d
  induction d with
  | nil => intro init _ _; simp
  | cons p rest ih =>
    obtain ⟨k, v⟩ := p
    intro init hnd hdisj
    rw [List.map_cons, List.nodup_cons] at hnd
    have hcons := hnd
    have hknin : k ∉ init.map Prod.fst := hdisj k (by simp)
    have hdisj2 : ∀ k' ∈ rest.map Prod.fst,
        k' ∉ (dictSet init k (TableVal.i v)).map Prod.fst := by
      intro k' hk'
      rw [keys_dictSet, if_neg hknin]
      intro hmem
      rcases List.mem_append.mp hmem with hm | hm
      · exact hdisj k' (by simp [hk']) hm
      · simp only [List.mem_singleton] at hm
        subst hm
        exact hcons.1 hk'
    rw [List.foldl_cons, ih _ hcons.2 hdisj2, keys_dictSet, if_neg hknin]
    simp

theorem keys_mkRecord (sid : String) (d : AList)
    (hnd : (d.map Prod.fst).Nodup) (hsd : "Student_ID" ∉ d.map Prod.fst) :
    (mkRecord sid d).map Prod.fst = "Student_ID" :: d.map Prod.fst := by
  rw [mkRecord, keys_foldl_dictSet d _ hnd ?_]
  · rfl
  · intro k hk
    simp only [List.map_cons, List.map_nil, List.mem_singleton]
    intro hke
    subst hke
    exact hsd hk

theorem lookup_mkRecord (sid : String) (d : AList)
    (hnd : (d.map Prod.fst).Nodup) (hsd : "Student_ID" ∉ d.map Prod.fst)
    (c : String) :
    (mkRecord sid d).lookup c =
      if c = "Student_ID" then some (TableVal.s sid)
      else (d.lookup c).map TableVal.i := by
  rw [mkRecord, lookup_foldl_dictSet d _ c hnd]
  by_cases hc : c = "Student_ID"
  · subst hc
    rw [lookup_eq_none_of_not_mem d _ hsd]
    simp [List.lookup_cons]
  · cases hd : d.lookup c <;>
      simp [hd, List.lookup_cons, beq_false_of_ne hc, hc]

theorem processFiles_eq (fs : List File) :
    processFiles fs = ((okFiles fs).map recOf, (okFiles fs).map fname,
      (fs.filter (fun f => !fileOk f)).map errOf) := by
  induction fs with
  | nil => rfl
  | cons f rest ih =>
    cases hsid : extract_student_id f with
    | none =>
      have hsv : sidOf f = "" := by rw [sidOf, hsid]; rfl
      have hok : fileOk f = false := by simp [fileOk, hsv]
      simp [processFiles, hsid, ih, okFiles, List.filter_cons, hok, errOf, hsv]
    | some sid =>
      have hsv : sidOf f = sid := by rw [sidOf, hsid]; rfl
      by_cases hse : sid = ""
      · subst hse
        have hok : fileOk f = false := by simp [fileOk, hsv]
        simp [processFiles, hsid, ih, okFiles, List.filter_cons, hok, errOf, hsv]
      · cases hdata : extract_internship_data f with
        | none =>
          have hcv : catOf f = [] := by rw [catOf, hdata]; rfl
          have hok : fileOk f = false := by simp [fileOk, hcv]
          simp [processFiles, hsid, hse, hdata, ih, okFiles, List.filter_cons,
            hok, errOf, hsv]
        | some d =>
          have hcv : catOf f = d := by rw [catOf, hdata]; rfl
          by_cases hde : d.isEmpty
          · have hok : fileOk f = false := by simp [fileOk, hcv, hde]
            simp [processFiles, hsid, hse, hdata, hde, ih, okFiles,
              List.filter_cons, hok, errOf, hsv]
          · have hok : fileOk f = true := by
              simp [fileOk, hcv, hsv, hse, Bool.eq_false_iff.mpr hde]
            simp [processFiles, hsid, hse, hdata, hde, ih, okFiles,
              List.filter_cons, hok, recOf, hsv, hcv]

theorem process_zip_file_snd (fs : List File) :
    (process_zip_file fs).2 = (processFiles fs).2 := by
  simp only [process_zip_file]
  split <;> rfl

theorem length_filter_partition (p : File → Bool) (fs : List File) :
    (fs.filter p).length + (fs.filter (fun f => !p f)).length = fs.length := by
  induction fs with
  | nil => rfl
  | cons f rest ih =>
    by_cases hf : p f <;> simp [List.filter_cons, hf, ← ih] <;> omega

/-! ### Lemmas: first-seen key union and filtering -/

theorem filter_insKey (p : String → Bool) (a : List String) (k : String) :
    (insKey a k).filter p = if p k then insKey (a.filter p) k else a.filter p := by
  by_cases hk : p k = true
  · rw [if_pos hk]
    by_cases hm : k ∈ a
    · rw [insKey, if_pos hm, insKey, if_pos (List.mem_filter.mpr ⟨hm, hk⟩)]
    · rw [insKey, if_neg hm,
        insKey, if_neg (fun hc => hm (List.mem_filter.mp hc).1),
        List.filter_append]
      simp [hk]
  · rw [if_neg hk]
    by_cases hm : k ∈ a
    · rw [insKey, if_pos hm]
    · rw [insKey, if_neg hm, List.filter_append]
      simp [Bool.eq_false_iff.mpr hk]

theorem filter_foldl_insKey (p : String → Bool) :
    ∀ (ks acc : List String),
      (ks.foldl insKey acc).filter p = (ks.filter p).foldl insKey (acc.filter p) := by
  intro ks
  induction ks with
  | nil => intro acc; rfl
  | cons k ks ih =>
    intro acc
    rw [List.foldl_cons, ih, filter_insKey]
    by_cases hk : p k = true
    · rw [if_pos hk, List.filter_cons_of_pos hk, List.foldl_cons]
    · rw [if_neg hk, List.filter_cons_of_neg (by simpa using hk)]

theorem filter_unionKeys (p : String → Bool) (kss : List (List String)) :
    (unionKeys kss).filter p = unionKeys (kss.map (fun ks => ks.filter p)) := by
  suffices h : ∀ acc : List String, ((kss.foldl (fun a ks => ks.foldl insKey a) acc).filter p)
      = (kss.map (fun ks => ks.filter p)).foldl
          (fun a ks => ks.foldl insKey a) (acc.filter p) by
    simpa [unionKeys] using h []
  induction kss with
  | nil => intro acc; rfl
  | cons ks kss ih =>
    intro acc
    rw [List.foldl_cons, ih, filter_foldl_insKey, List.map_cons, List.foldl_cons]

/-! ### Shared step lemmas -/

theorem scanBlock_cons_of_parse_fail (r : Row) (rest : List Row) (acc : AList)
    (a c : CellVal) (h0 : getCell r 0 = some a) (h2 : getCell r 2 = some c)
    (hshape : rowShapeOk r = true) (hparse : pyFloatInt c = none) :
    scanBlock (r :: rest) acc = scanBlock rest acc := by
  simp only [scanBlock, hshape, if_true, h0, h2, hparse]
  split <;> rfl

theorem scanBlock_cons_of_parse_ok (r : Row) (rest : List Row) (acc : AList)
    (a c : CellVal) (n : Int) (h0 : getCell r 0 = some a) (h2 : getCell r 2 = some c)
    (hshape : rowShapeOk r = true) (hparse : pyFloatInt c = some n)
    (hcode : pyStrip (pyStr a) ≠ "") :
    scanBlock (r :: rest) acc = scanBlock rest (pyUpdate acc (pyStrip (pyStr a)) n) := by
  simp only [scanBlock, hshape, if_true, h0, h2, hparse]
  rw [if_neg hcode]

theorem docLoop_skip (nm : String) (post : List (String × Option Sheet)) :
    ∀ (pre : List (String × Option Sheet)) (acc : AList),
      docLoop (pre ++ (nm, none) :: post) acc = docLoop (pre ++ post) acc := by
  intro pre
  induction pre with
  | nil => intro acc; rfl
  | cons p pres ih =>
    intro acc
    obtain ⟨pn, os⟩ := p
    cases os with
    | none =>
      simp only [List.cons_append, docLoop]
      exact ih acc
    | some rows =>
      simp only [List.cons_append, docLoop]
      rcases hs : sheetLoop rows acc with m | acc'
      · rfl
      · exact ih acc'

/-! ## The claims -/

/-- C2: for every input batch, each input file contributes its name to exactly
one of the two output sequences — the processed list holds the names of the
files passing the success path, the failed list holds one `name: reason`
entry per file failing it, both in input order — and the two lengths sum to
the input file count. -/
theorem c2_outcome_partition (fs : List File) :
    (process_zip_file fs).2.1 = (okFiles fs).map fname
    ∧ (process_zip_file fs).2.2 = (fs.filter (fun f => !fileOk f)).map errOf
    ∧ (process_zip_file fs).2.1.length + (process_zip_file fs).2.2.length
        = fs.length := by
  have ha : (process_zip_file fs).2 =
      ((okFiles fs).map fname, (fs.filter (fun f => !fileOk f)).map errOf) := by
    rw [process_zip_file_snd, processFiles_eq]
  refine ⟨?_, ?_, ?_⟩
  · rw [ha]
  · rw [ha]
  · rw [ha]
    simp only [List.length_map, okFiles]
    exact length_filter_partition fileOk fs

/-- C4: during block extraction, a row meeting the shape condition (at least
4 columns, columns 0 and 2 non-empty) whose candidate count fails to parse as
a number contributes nothing and the scan continues with the next row of the
same block — it does not terminate the block. -/
theorem c4_parse_failure_continues (r : Row) (rest : List Row) (acc : AList)
    (a c : CellVal) (h0 : getCell r 0 = some a) (h2 : getCell r 2 = some c)
    (hshape : rowShapeOk r = true) (hparse : pyFloatInt c = none) :
    scanBlock (r :: rest) acc = scanBlock rest acc :=
  scanBlock_cons_of_parse_fail r rest acc a c h0 h2 hshape hparse

/-- Witness for C4 at a concrete row: the "N/A" data row of Scenario D. -/
theorem c4_parse_failure_continues_witness :
    rowShapeOk (dRow "B" (.vStr "N/A")) = true
    ∧ pyFloatInt (.vStr "N/A") = none
    ∧ scanBlock [dRow "B" (.vStr "N/A"), dRow "C" (.vNum 3)] [("A", 1)]
        = scanBlock [dRow "C" (.vNum 3)] [("A", 1)] :=
  ⟨by decide, by decide,
   c4_parse_failure_continues (dRow "B" (.vStr "N/A")) [dRow "C" (.vNum 3)]
     [("A", 1)] (.vStr "B") (.vStr "N/A") rfl rfl (by decide) (by decide)⟩

/-- C3 counterexample: in the Scenario D document the "N/A" row is followed
by a further conforming row `C ↦ 3`, and the code records it — so scanning of
the block does **not** stop at the non-parsing row as the claim states; were
the claim true, the result would be `{A ↦ 1}` alone. -/
theorem c3_counterexample :
    extract_internship_data (.ok "d.xlsx" blockDoc) = some [("A", 1), ("C", 3)]
    ∧ extract_internship_data (.ok "d.xlsx" blockDoc) ≠ some [("A", 1)] := by
  constructor <;> decide

/-- C3 (amended): a data row meeting the shape condition whose "Completed"
cell fails to parse as a number (e.g. the text "N/A") is skipped and the scan
**continues** with the next row of the same block (the non-conforming-row
stop rule does not apply, since the row conforms in shape); every category
code captured before that row is still present in the returned mapping. -/
theorem c3_parse_failure_row_skipped (r : Row) (rest : List Row) (acc : AList)
    (a c : CellVal) (h0 : getCell r 0 = some a) (h2 : getCell r 2 = some c)
    (hshape : rowShapeOk r = true) (hparse : pyFloatInt c = none) :
    scanBlock (r :: rest) acc = scanBlock rest acc
    ∧ ∀ k, ((List.lookup k acc).isSome) →
        ((List.lookup k (scanBlock (r :: rest) acc)).isSome) := by
  have heq := scanBlock_cons_of_parse_fail r rest acc a c h0 h2 hshape hparse
  refine ⟨heq, fun k hk => ?_⟩
  rw [heq]
  exact scanBlock_lookup_isSome rest acc k hk

/-- Witness for C3 (amended) at Scenario D's "N/A" row with `A ↦ 1` already
captured. -/
theorem c3_parse_failure_row_skipped_witness :
    scanBlock [dRow "B" (.vStr "N/A"), dRow "C" (.vNum 3), []] [("A", 1)]
      = scanBlock [dRow "C" (.vNum 3), []] [("A", 1)]
    ∧ (List.lookup "A"
        (scanBlock [dRow "B" (.vStr "N/A"), dRow "C" (.vNum 3), []] [("A", 1)])).isSome := by
  have h := c3_parse_failure_row_skipped (dRow "B" (.vStr "N/A"))
    [dRow "C" (.vNum 3), []] [("A", 1)] (.vStr "B") (.vStr "N/A")
    rfl rfl (by decide) (by decide)
  exact ⟨h.1, h.2 "A" (by decide)⟩

/-- C5 counterexample: a file that cannot be opened as a spreadsheet is
reported with the student-ID extraction reason (produced because the open
failure is caught inside `extract_student_id`), not with a "could not open"
reason at the batch layer as the claim states. -/
theorem c5_counterexample :
    process_zip_file [File.corrupt "bad.xlsx"]
      = (([], []), [],
         ["bad.xlsx: Could not extract student ID from 'Current Semester Advising' sheet, cell C5"])
    ∧ ("bad.xlsx: Could not extract student ID from 'Current Semester Advising' sheet, cell C5"
        ≠ "bad.xlsx: could not open") := by
  constructor <;> decide

/-- C5 (amended): an unopenable file is caught inside the extractors (both
return the NotFound marker); the batch layer therefore classifies it with the
student-ID failure reason, and processing continues with the remaining
files unchanged. -/
theorem c5_open_failure_classified (n : String) (rest : List File) :
    extract_student_id (File.corrupt n) = none
    ∧ extract_internship_data (File.corrupt n) = none
    ∧ processFiles (File.corrupt n :: rest)
        = ((processFiles rest).1, (processFiles rest).2.1,
           (n ++ ": " ++ idErrReason) :: (processFiles rest).2.2) :=
  ⟨rfl, rfl, rfl⟩

/-- C6 counterexample: with C5 holding whitespace-only text, the extractor
returns `some ""` — the stripped string — not the NotFound marker `none`
that the claim requires. -/
theorem c6_counterexample :
    extract_student_id (.ok "w.xlsx" wsDoc) = some ""
    ∧ extract_student_id (.ok "w.xlsx" wsDoc) ≠ none := by
  constructor <;> decide

/-- C6 (amended): when the advising sheet is present (readable) and C5 is
non-empty, the extractor returns the stripped string form of the cell —
the empty string in the whitespace-only case, not the NotFound marker; it is
the batch layer's falsiness check that then classifies such a file as
failed with the student-ID reason. -/
theorem c6_whitespace_id (n : String) (doc : Document) (nm : String)
    (rows : Sheet) (v : CellVal)
    (hfind : doc.sheets.find? (fun p => p.1 = "Current Semester Advising")
      = some (nm, some rows))
    (hcell : getCell (rows.getD 4 []) 2 = some v) :
    extract_student_id (.ok n doc) = some (pyStrip (pyStr v))
    ∧ (pyStrip (pyStr v) = "" →
        processFiles [.ok n doc] = ([], [], [n ++ ": " ++ idErrReason])) := by
  have hid : extract_student_id (.ok n doc) = some (pyStrip (pyStr v)) := by
    simp only [extract_student_id, hfind, hcell]
  refine ⟨hid, fun hempty => ?_⟩
  simp [processFiles, hid, hempty, fname]

/-- Witness for C6 (amended) at the whitespace-only document. -/
theorem c6_whitespace_id_witness :
    extract_student_id (.ok "w.xlsx" wsDoc) = some (pyStrip (pyStr (.vStr "   ")))
    ∧ processFiles [.ok "w.xlsx" wsDoc]
        = ([], [], ["w.xlsx" ++ ": " ++ idErrReason]) := by
  have h := c6_whitespace_id "w.xlsx" wsDoc "Current Semester Advising"
    (advSheet (some (.vStr "   "))) (.vStr "   ") rfl rfl
  exact ⟨h.1, h.2 (by decide)⟩

/-- C9: consolidation is deterministic — the consolidated table, processed
list and failed list are a function of the input batch alone, so two runs on
the same batch (same bytes, same order) produce identical outputs. -/
theorem c9_deterministic (fs1 fs2 : List File) (h : fs1 = fs2) :
    process_zip_file fs1 = process_zip_file fs2 := by
  rw [h]

/-- Witness for C9 at a concrete batch. -/
theorem c9_deterministic_witness :
    process_zip_file [File.ok "a.xlsx" sampleDoc]
      = process_zip_file [File.ok "a.xlsx" sampleDoc] :=
  c9_deterministic [File.ok "a.xlsx" sampleDoc] [File.ok "a.xlsx" sampleDoc] rfl

/-- C10: a sheet that raises on read during the category-table scan is
silently skipped — the scan result over a document containing an unreadable
sheet equals the result over the same document with that sheet removed, so a
per-sheet read failure never aborts the whole scan. -/
theorem c10_sheet_error_skipped (n nm : String)
    (pre post : List (String × Option Sheet)) :
    extract_internship_data (.ok n ⟨pre ++ (nm, none) :: post⟩)
      = extract_internship_data (.ok n ⟨pre ++ post⟩) :=
  docLoop_skip nm post pre []

/-- C7: a row is recognized as a header row exactly when it has at least 4
columns and its cells 0 and 2 are non-empty and, after stripping and
case-folding, equal "internship code" and "completed"; and the category code
a conforming data row records is the stripped — but never case-folded —
string form of its cell 0. -/
theorem c7_header_recognition (r : Row) :
    (isHeaderRow r = true ↔
      4 ≤ r.length ∧ ∃ a c, getCell r 0 = some a ∧ getCell r 2 = some c
        ∧ pyLower (pyStrip (pyStr a)) = "internship code"
        ∧ pyLower (pyStrip (pyStr c)) = "completed")
    ∧ (∀ a c n rest acc, getCell r 0 = some a → getCell r 2 = some c →
        rowShapeOk r = true → pyFloatInt c = some n → pyStrip (pyStr a) ≠ "" →
        scanBlock (r :: rest) acc
          = scanBlock rest (pyUpdate acc (pyStrip (pyStr a)) n)) := by
  constructor
  · cases h0 : getCell r 0 <;> cases h2 : getCell r 2 <;>
      simp [isHeaderRow, h0, h2, Bool.and_eq_true, decide_eq_true_eq,
        beq_iff_eq, and_assoc]
  · intro a c n rest acc h0 h2 hshape hparse hcode
    exact scanBlock_cons_of_parse_ok r rest acc a c n h0 h2 hshape hparse hcode

/-- Witness for C7: a header row in mixed case with surrounding whitespace is
recognized, and a data row's code "SpTh290" is recorded in its original
casing. -/
theorem c7_header_recognition_witness :
    isHeaderRow mixedHdrRow = true
    ∧ scanBlock [dRow "SpTh290" (.vNum 4)] []
        = scanBlock [] (pyUpdate [] (pyStrip (pyStr (.vStr "SpTh290"))) 4) :=
  ⟨(c7_header_recognition mixedHdrRow).1.mpr
    ⟨by decide, .vStr "  INTERNSHIP code ", .vStr " Completed",
     rfl, rfl, by decide, by decide⟩,
   (c7_header_recognition (dRow "SpTh290" (.vNum 4))).2
     (.vStr "SpTh290") (.vNum 4) 4 [] [] rfl rfl (by decide) (by decide)
     (by decide)⟩

/-- C8: the scan result is either NotFound or a non-empty mapping; it is
NotFound exactly when no readable sheet alone yields a non-empty mapping;
and once a prefix of the sheets yields `some m`, appending further sheets
cannot change the result — the first non-empty mapping is returned
immediately without scanning further sheets. -/
theorem c8_scan_result (nm : String) (doc : Document) :
    (extract_internship_data (.ok nm doc) = none ↔
      ∀ p ∈ doc.sheets, ∀ rows, p.2 = some rows → sheetFinds rows = false)
    ∧ (∀ m, extract_internship_data (.ok nm doc) = some m → m ≠ [])
    ∧ (∀ m extra, extract_internship_data (.ok nm doc) = some m →
        extract_internship_data (.ok nm ⟨doc.sheets ++ extra⟩) = some m) := by
  refine ⟨docLoop_none_iff doc.sheets, ?_, ?_⟩
  · intro m h
    exact extract_ne_nil _ _ h
  · intro m extra h
    exact docLoop_append doc.sheets extra [] m h rfl

/-- Witness for C8: the sample document yields a non-empty mapping, and
appending one more sheet with another header block leaves the result
unchanged. -/
theorem c8_scan_result_witness :
    extract_internship_data (.ok "a.xlsx" sampleDoc) = some [("SPTH290", 25)]
    ∧ extract_internship_data
        (.ok "a.xlsx" ⟨sampleDoc.sheets ++ [("More", some [hdrRow, dRow "Z" (.vNum 9)])]⟩)
        = some [("SPTH290", 25)]
    ∧ [("SPTH290", 25)] ≠ ([] : AList) := by
  have h1 : extract_internship_data (.ok "a.xlsx" sampleDoc)
      = some [("SPTH290", 25)] := by decide
  have h := c8_scan_result "a.xlsx" sampleDoc
  exact ⟨h1, h.2.2 [("SPTH290", 25)] [("More", some [hdrRow, dRow "Z" (.vNum 9)])] h1,
    h.2.1 [("SPTH290", 25)] h1⟩

/-- C1 counterexample: when a file records the category code "Student_ID"
(file 1 here), the record-dict collision makes the claim fail: "Student_ID"
is a category code in the batch union and is absent from file 2's
CategoryRecord, so the claim requires file 2's row to carry 0 in that
column — but it carries the identifier string "S2" (and file 1's identifier
is overwritten by the count 7). -/
theorem c1_counterexample :
    ("Student_ID" ∈ catCodes (File.ok "f1.xlsx" collideDoc))
    ∧ ("Student_ID" ∉ catCodes (File.ok "f2.xlsx" xDoc))
    ∧ process_zip_file [File.ok "f1.xlsx" collideDoc, File.ok "f2.xlsx" xDoc]
        = ((["Student_ID", "X"],
            [[TableVal.i 7, TableVal.i 0], [TableVal.s "S2", TableVal.i 3]]),
           ["f1.xlsx", "f2.xlsx"], [])
    ∧ TableVal.s "S2" ≠ TableVal.i 0 :=
  ⟨by decide, by decide, by decide, by decide⟩

/-- C1 (amended): provided no recorded category code is the literal string
"Student_ID", the consolidated table of any batch with at least one
successful record has "Student_ID" as its first column followed by the
first-seen-order union of all category codes; its rows, in the order files
were successfully processed, carry the exact recorded integer value for each
code present in that file's record and 0 for each code absent from it. -/
theorem c1_consolidated_table (fs : List File)
    (hne : okFiles fs ≠ [])
    (hnc : ∀ f ∈ fs, fileOk f = true → "Student_ID" ∉ catCodes f) :
    process_zip_file fs =
      (("Student_ID" :: unionKeys ((okFiles fs).map catCodes),
        (okFiles fs).map (fun f =>
          ("Student_ID" :: unionKeys ((okFiles fs).map catCodes)).map (fun c =>
            if c = "Student_ID" then TableVal.s (sidOf f)
            else TableVal.i ((List.lookup c (catOf f)).getD 0)))),
       (okFiles fs).map fname,
       (fs.filter (fun f => !fileOk f)).map errOf) := by
  have hok : ∀ f ∈ okFiles fs, fileOk f = true :=
    fun f hf => (List.mem_filter.mp hf).2
  have hnc' : ∀ f ∈ okFiles fs, "Student_ID" ∉ (catOf f).map Prod.fst :=
    fun f hf => hnc f (List.mem_filter.mp hf).1 (hok f hf)
  have hnd : ∀ f ∈ okFiles fs, ((catOf f).map Prod.fst).Nodup :=
    fun f hf => catOf_nodupKeys f (hok f hf)
  have hkeys : ∀ f ∈ okFiles fs,
      (recOf f).map Prod.fst = "Student_ID" :: catCodes f :=
    fun f hf => keys_mkRecord (sidOf f) (catOf f) (hnd f hf) (hnc' f hf)
  have hrecs_ne : ¬ ((processFiles fs).1.isEmpty = true) := by
    rw [processFiles_eq]
    simp only [List.isEmpty_iff, List.map_eq_nil_iff]
    exact hne
  have hcols : reorderCols (dfColumns ((okFiles fs).map recOf))
      = "Student_ID" :: unionKeys ((okFiles fs).map catCodes) := by
    rw [reorderCols, dfColumns]
    congr 1
    rw [List.map_map]
    have hmapeq : (okFiles fs).map ((fun d => d.map Prod.fst) ∘ recOf)
        = (okFiles fs).map (fun f => "Student_ID" :: catCodes f) :=
      List.map_congr_left (fun f hf => hkeys f hf)
    rw [hmapeq, filter_unionKeys]
    congr 1
    rw [List.map_map]
    refine List.map_congr_left (fun f hf => ?_)
    show ("Student_ID" :: catCodes f).filter (fun c => c ≠ "Student_ID")
        = catCodes f
    rw [List.filter_cons_of_neg (by simp)]
    refine List.filter_eq_self.mpr (fun c hc => ?_)
    simp only [ne_eq, decide_not, Bool.not_eq_true', decide_eq_false_iff_not]
    exact fun he => (hnc' f hf) (he ▸ hc)
  have hrows : tableRows ("Student_ID" :: unionKeys ((okFiles fs).map catCodes))
      ((okFiles fs).map recOf)
      = (okFiles fs).map (fun f =>
          ("Student_ID" :: unionKeys ((okFiles fs).map catCodes)).map (fun c =>
            if c = "Student_ID" then TableVal.s (sidOf f)
            else TableVal.i ((List.lookup c (catOf f)).getD 0))) := by
    rw [tableRows, List.map_map]
    refine List.map_congr_left (fun f hf => ?_)
    refine List.map_congr_left (fun c _ => ?_)
    show ((recOf f).lookup c).getD (TableVal.i 0) = _
    rw [show recOf f = mkRecord (sidOf f) (catOf f) from rfl,
      lookup_mkRecord (sidOf f) (catOf f) (hnd f hf) (hnc' f hf) c]
    by_cases hc : c = "Student_ID"
    · simp [hc]
    · rw [if_neg hc, if_neg hc]
      cases List.lookup c (catOf f) <;> simp
  have h1 : (processFiles fs).1 = (okFiles fs).map recOf := by
    rw [processFiles_eq]
  have h21 : (processFiles fs).2.1 = (okFiles fs).map fname := by
    rw [processFiles_eq]
  have h22 : (processFiles fs).2.2 = (fs.filter (fun f => !fileOk f)).map errOf := by
    rw [processFiles_eq]
  simp only [process_zip_file]
  rw [if_neg hrecs_ne, h1, h21, h22, hcols, hrows]

/-- Witness for C1 (amended): two files reporting disjoint single categories
(spec Scenario C). -/
theorem c1_consolidated_table_witness :
    okFiles [File.ok "f1.xlsx" oneDocA, File.ok "f2.xlsx" oneDocB] ≠ []
    ∧ process_zip_file [File.ok "f1.xlsx" oneDocA, File.ok "f2.xlsx" oneDocB]
        = ((["Student_ID", "SPTH290", "SPTH291"],
            [[TableVal.s "S1", TableVal.i 25, TableVal.i 0],
             [TableVal.s "S2", TableVal.i 0, TableVal.i 30]]),
           ["f1.xlsx", "f2.xlsx"], []) := by
  refine ⟨by decide, ?_⟩
  rw [c1_consolidated_table [File.ok "f1.xlsx" oneDocA, File.ok "f2.xlsx" oneDocB]
    (by decide) (by decide)]
  decide

end Tracker
